import Mathlib

/-!
# gowiki: a shallow embedding of `wiki.go`

The Go program serves wiki pages kept as flat files under `data/`, routes
`/view/`, `/edit/` and `/save/` through `makeHandler` (which validates the
request path with the regular expression `validPath`), and accepts JSON
`Person` records on `/person/`.

Go `string` values are embedded as Lean `String` (text that is valid UTF-8; a
byte that is not is read by `regexp` as U+FFFD, which no literal or class of
`validPath` admits), `[]byte` as `List UInt8`, `error` values as their message
(`String`).  A form value is an arbitrary byte string, not necessarily valid
UTF-8, and is kept as its bytes (`List UInt8`), so that the conversion
`[]byte(body)` of `saveHandler` is the identity.  Library calls with effects
(`ioutil.ReadFile`, `ioutil.WriteFile`, `templates.ExecuteTemplate`,
`db.Exec`) act on an explicit `World` and are recorded, in call order, in
`World.trace`.
-/

namespace Gowiki

/-! ## The `regexp` package: patterns, backtracking matcher, submatches -/

/-- Regular-expression syntax trees: the fragment of Go `regexp` syntax that
`validPath` uses.  `group i re` is the i-th capturing parenthesis, `bot` is
`^` and `eot` is `$` (without the `m` flag they match only at the beginning
and at the end of the text). -/
inductive Regex where
  | char : Char → Regex
  | cls : List (Char × Char) → Regex
  | seq : Regex → Regex → Regex
  | alt : Regex → Regex → Regex
  | plus : Regex → Regex
  | group : Nat → Regex → Regex
  | bot : Regex
  | eot : Regex

/-- Matcher state: `pos` characters of the text have been consumed, `rest` is
what remains, `caps` holds the (start, end) offsets of the groups closed so
far, most recent first. -/
structure MState where
  pos : Nat
  rest : List Char
  caps : List (Nat × Nat × Nat)

/-- Membership of a character in a bracket expression given by its ranges. -/
def inRanges (rs : List (Char × Char)) (c : Char) : Bool :=
  rs.any (fun r => decide (r.1 ≤ c) && decide (c ≤ r.2))

/-- Repetition `re+`, greedy: after one iteration (`step`) first try a further
iteration, then the continuation.  An iteration that consumes nothing is not
repeated; `n` bounds the number of further iterations and is instantiated
with the length of the remaining text. -/
def plusLoop (step : MState → (MState → Option MState) → Option MState) :
    Nat → MState → (MState → Option MState) → Option MState
  | 0, st, k => step st k
  | n + 1, st, k =>
    step st (fun st1 =>
      (if st1.rest.length < st.rest.length then plusLoop step n st1 k else none).orElse
        (fun _ => k st1))

/-- Backtracking matcher with leftmost-first (Perl-like) preference, the
semantics of Go `regexp`: `matchK re st k` matches `re` at `st` and hands
each way of doing so, in order of preference, to the continuation `k` until
one succeeds. -/
def matchK : Regex → MState → (MState → Option MState) → Option MState
  | .char c, st, k =>
    match st.rest with
    | [] => none
    | x :: xs => if x = c then k { st with pos := st.pos + 1, rest := xs } else none
  | .cls rs, st, k =>
    match st.rest with
    | [] => none
    | x :: xs => if inRanges rs x then k { st with pos := st.pos + 1, rest := xs } else none
  | .seq a b, st, k => matchK a st (fun st1 => matchK b st1 k)
  | .alt a b, st, k => (matchK a st k).orElse (fun _ => matchK b st k)
  | .plus a, st, k => plusLoop (fun s j => matchK a s j) st.rest.length st k
  | .group i a, st, k =>
    matchK a st (fun st1 => k { st1 with caps := (i, st.pos, st1.pos) :: st1.caps })
  | .bot, st, k => if st.pos = 0 then k st else none
  | .eot, st, k => if st.rest = [] then k st else none

/-- Leftmost match: try the start offsets `pos`, `pos + 1`, ... in turn. -/
def searchFrom (re : Regex) : Nat → List Char → Option MState
  | pos, [] => matchK re ⟨pos, [], []⟩ (fun st => some { st with caps := (0, pos, st.pos) :: st.caps })
  | pos, x :: xs =>
    (matchK re ⟨pos, x :: xs, []⟩
      (fun st => some { st with caps := (0, pos, st.pos) :: st.caps })).orElse
      (fun _ => searchFrom re (pos + 1) xs)

/-- Text of group `i` of a match: the slice between the recorded offsets, or
the empty string when the group did not take part in the match. -/
def submatch (text : List Char) (caps : List (Nat × Nat × Nat)) (i : Nat) : String :=
  match caps.lookup i with
  | some (s, e) => String.mk ((text.drop s).take (e - s))
  | none => ""

/-- Compiled pattern: the syntax tree and the number of capturing groups. -/
structure Regexp where
  re : Regex
  numSubexp : Nat

/-- Go `(*Regexp).FindStringSubmatch`: `none` (nil) when there is no match,
otherwise the text of the leftmost match followed by the text of each
capturing group. -/
def Regexp.FindStringSubmatch (r : Regexp) (s : String) : Option (List String) :=
  match searchFrom r.re 0 s.data with
  | none => none
  | some st => some ((List.range (r.numSubexp + 1)).map (submatch s.data st.caps))

/-- Literal text as a pattern (a non-empty sequence of characters). -/
def Regex.lit : Char → List Char → Regex
  | c, [] => .char c
  | c, d :: ds => .seq (.char c) (Regex.lit d ds)

/-- Source: `validPath = regexp.MustCompile("^/(edit|save|view)/([a-zA-Z0-9]+)$")`. -/
def validPath : Regexp :=
  { re :=
      .seq .bot
        (.seq (.char '/')
          (.seq (.group 1
              (.alt (Regex.lit 'e' ['d', 'i', 't'])
                (.alt (Regex.lit 's' ['a', 'v', 'e']) (Regex.lit 'v' ['i', 'e', 'w']))))
            (.seq (.char '/')
              (.seq (.group 2 (.plus (.cls [('a', 'z'), ('A', 'Z'), ('0', '9')]))) .eot))))
    numSubexp := 2 }


/-- Characters admitted in a page title: the bracket expression `[a-zA-Z0-9]`. -/
def Alnum (c : Char) : Prop :=
  ('a' ≤ c ∧ c ≤ 'z') ∨ ('A' ≤ c ∧ c ≤ 'Z') ∨ ('0' ≤ c ∧ c ≤ '9')

instance (c : Char) : Decidable (Alnum c) := by unfold Alnum; infer_instance

/-- A title matching `^[a-zA-Z0-9]+$`: non-empty, every character in `[a-zA-Z0-9]`. -/
def validTitle (t : String) : Prop :=
  t.data ≠ [] ∧ ∀ c ∈ t.data, Alnum c

instance (t : String) : Decidable (validTitle t) := by unfold validTitle; infer_instance

/-- The three actions of the route shape `/{action}/{title}`. -/
def actions : List String := ["edit", "save", "view"]

/-- The three action words of `validPath`, as character lists. -/
def actionWords : List (List Char) :=
  [['e', 'd', 'i', 't'], ['s', 'a', 'v', 'e'], ['v', 'i', 'e', 'w']]

/-- Final matcher state of `validPath` on a path whose title is `t`. -/
def finalState (t : List Char) : MState :=
  ⟨6 + t.length, [], [(0, 0, 6 + t.length), (2, 6, 6 + t.length), (1, 1, 5)]⟩

/-! ## Data model -/

/-- Source: `type Page struct { Title string; Body []byte }`. -/
structure Page where
  Title : String
  Body : List UInt8
  deriving DecidableEq

/-- Source: `type Person struct`; `Age` is an `int32`, `Id` an `int`. -/
structure Person where
  Id : Int
  Name : String
  Age : Int
  EyeColor : String
  deriving DecidableEq

/-! ## The world outside the program -/

/-- Calls into the storage and template libraries, recorded in call order. -/
inductive Event where
  | readFile (filename : String)
  | writeFile (filename : String) (data : List UInt8) (perm : Nat)
  | executeTemplate (name : String) (p : Page)
  | exec (query : String) (name : String) (age : Int) (eyeColor : String)
  deriving DecidableEq

/-- The flat storage area.  `read name` is what `ioutil.ReadFile name` returns
(the contents, or the error message when the file is absent or unreadable);
`writeErr name` is the error, if any, with which a write to `name` fails. -/
structure FileSystem where
  read : String → Except String (List UInt8)
  writeErr : String → Option String

/-- The relational store.  `connErr` is the error, if any, of `sql.Open` or
`db.Ping`; `insertErr` the error, if any, with which the engine rejects a row;
`PERSON` the rows (NAME, AGE, EYE_COLOR) of the table in insertion order. -/
structure Database where
  connErr : Option String
  insertErr : String → Int → String → Option String
  PERSON : List (String × Int × String)

/-- Everything a handler can observe or change besides its response.
`templates name p` is the output that executing the parsed template `name`
on `p` writes and the error, if any, that it returns; `jsonDecode body` is
the value `json.NewDecoder(body).Decode(&person)` leaves in a zero `Person`
and the error, if any, that it returns. -/
structure World where
  fs : FileSystem
  db : Database
  templates : String → Page → String × Option String
  jsonDecode : String → Person × Option String
  trace : List Event

/-- Append an event to the trace. -/
def World.log (world : World) (e : Event) : World :=
  { world with trace := world.trace ++ [e] }

/-- Go `ioutil.WriteFile(filename, data, perm)`: on success the file holds
exactly `data`; a failed write leaves the storage area as it was. -/
def ioutil.WriteFile (filename : String) (data : List UInt8) (perm : Nat) (world : World) :
    Option String × World :=
  let world1 := world.log (.writeFile filename data perm)
  match world.fs.writeErr filename with
  | some err => (some err, world1)
  | none =>
    (none, { world1 with
      fs := { world.fs with
        read := fun name => if name = filename then .ok data else world.fs.read name } })

/-- Go `ioutil.ReadFile(filename)`. -/
def ioutil.ReadFile (filename : String) (world : World) : Except String (List UInt8) × World :=
  (world.fs.read filename, world.log (.readFile filename))

/-! ## `net/http`: requests, response writers, helpers -/

/-- The parts of `*http.Request` the handlers read: `Method`, `URL.Path`, the
parsed form (`r.Form`, URL query and body fields, in order of precedence; each
value is the byte string the client sent) and the raw body. -/
structure Request where
  Method : String
  Path : String
  Form : List (String × List UInt8)
  Body : String

/-- Go `r.FormValue(key)`: first value for the key, empty when absent. -/
def Request.FormValue (r : Request) (key : String) : List UInt8 :=
  (r.Form.lookup key).getD []

/-- An `http.ResponseWriter`: the header map, the status code once the header
has been written, and the body written so far. -/
structure ResponseWriter where
  header : List (String × String)
  status : Option Nat
  body : String
  deriving DecidableEq

/-- The writer net/http hands to a handler. -/
def ResponseWriter.fresh : ResponseWriter := ⟨[], none, ""⟩

/-- Go `w.Header().Set(key, value)`. -/
def ResponseWriter.Set (w : ResponseWriter) (key value : String) : ResponseWriter :=
  { w with header := (key, value) :: w.header.filter (fun kv => kv.1 != key) }

/-- Go `w.Header().Get(key)`. -/
def ResponseWriter.Get (w : ResponseWriter) (key : String) : Option String :=
  w.header.lookup key

/-- Go `w.WriteHeader(code)`: only the first call takes effect. -/
def ResponseWriter.WriteHeader (w : ResponseWriter) (code : Nat) : ResponseWriter :=
  match w.status with
  | some _ => w
  | none => { w with status := some code }

/-- Go `w.Write(data)`: writes the header with status 200 if it has not been
written yet, then appends to the body. -/
def ResponseWriter.Write (w : ResponseWriter) (data : String) : ResponseWriter :=
  let w1 := w.WriteHeader 200
  { w1 with body := w1.body ++ data }

/-- Status the client receives: 200 when the handler never wrote a header. -/
def ResponseWriter.code (w : ResponseWriter) : Nat := w.status.getD 200

def http.StatusFound : Nat := 302
def http.StatusNotFound : Nat := 404
def http.StatusInternalServerError : Nat := 500

/-- Go `http.StatusText`, for the codes this program uses. -/
def http.StatusText (code : Nat) : String :=
  if code = 200 then "OK"
  else if code = 302 then "Found"
  else if code = 404 then "Not Found"
  else if code = 500 then "Internal Server Error"
  else ""

/-- Go `http.Error(w, error, code)`. -/
def http.Error (w : ResponseWriter) (error : String) (code : Nat) : ResponseWriter :=
  let w1 := w.Set "Content-Type" "text/plain; charset=utf-8"
  let w2 := w1.Set "X-Content-Type-Options" "nosniff"
  let w3 := w2.WriteHeader code
  w3.Write (error ++ "\n")

/-- Go `http.NotFound(w, r)`. -/
def http.NotFound (w : ResponseWriter) (_r : Request) : ResponseWriter :=
  http.Error w "404 page not found" http.StatusNotFound

/-- The HTML escaping `http.Redirect` applies to the target in its note. -/
def http.htmlEscape (s : String) : String :=
  String.join (s.data.map fun c =>
    if c = '&' then "&amp;"
    else if c = '<' then "&lt;"
    else if c = '>' then "&gt;"
    else if c = '"' then "&#34;"
    else if c = '\'' then "&#39;"
    else String.singleton c)

/-- Go `http.Redirect(w, r, url, code)` for a target that is an absolute,
already clean ASCII path without a query, such as `"/view/FrontPage"` or
`"/edit/" + title` for a title matching `validPath`: net/http leaves such a
target as it is, so the `Location` header is the target, the status is `code`,
and a `GET` request also gets a short HTML note in the body.  For any other
target net/http first resolves it against the request path, applies
`path.Clean` and hex-escapes non-ASCII bytes; that normalisation is not
modelled, and the theorems on the handlers speak of the `Location` only for
targets of the first kind. -/
def http.Redirect (w : ResponseWriter) (r : Request) (url : String) (code : Nat) :
    ResponseWriter :=
  let hadCT := (w.Get "Content-Type").isSome
  let w1 := w.Set "Location" url
  let w2 :=
    if !hadCT && (r.Method = "GET" || r.Method = "HEAD") then
      w1.Set "Content-Type" "text/html; charset=utf-8"
    else w1
  let w3 := w2.WriteHeader code
  if !hadCT && r.Method = "GET" then
    w3.Write ("<a href=\"" ++ http.htmlEscape url ++ "\">" ++ http.StatusText code ++ "</a>.\n" ++ "\n")
  else w3

/-- Outcome of running a handler: the response and the world afterwards, or
`Except.error msg` when the handler panics with `msg`. -/
abbrev HandlerResult := Except String (ResponseWriter × World)

/-- Go `http.HandlerFunc`, with the world threaded through. -/
abbrev HandlerFunc := ResponseWriter → Request → World → HandlerResult

/-! ## `wiki.go` -/

/-- Source: `GetDb`; `sql.Open` and `db.Ping` succeed or the function panics
with the error message (the diagnostic prints are not modelled). -/
def GetDb (world : World) : Except String Database :=
  match world.db.connErr with
  | some err => .error err
  | none => .ok world.db

/-- Go `db.Exec` applied to the statement of `Person.save`. -/
def Database.Exec (db : Database) (query : String) (name : String) (age : Int)
    (eyeColor : String) (world : World) : Option String × World :=
  let world1 := world.log (.exec query name age eyeColor)
  match db.insertErr name age eyeColor with
  | some err => (some err, world1)
  | none =>
    (none, { world1 with
      db := { world.db with PERSON := world.db.PERSON ++ [(name, age, eyeColor)] } })

/-- Source: `func (p *Person) save() (err error)`. -/
def Person.save (p : Person) (world : World) : Except String (Option String × World) :=
  match GetDb world with
  | .error msg => .error msg
  | .ok db =>
    .ok (db.Exec "INSERT INTO PERSON (NAME, AGE, EYE_COLOR) VALUES (?, ?, ?)"
      p.Name p.Age p.EyeColor world)

/-- Source: `func (p *Page) save() error`. -/
def Page.save (p : Page) (world : World) : Option String × World :=
  let filename := "data/" ++ p.Title ++ ".txt"
  ioutil.WriteFile filename p.Body 0o600 world

/-- Source: `func loadPage(title string) (*Page, error)`. -/
def loadPage (title : String) (world : World) : Except String Page × World :=
  let filename := "data/" ++ title ++ ".txt"
  match ioutil.ReadFile filename world with
  | (.error err, world1) => (.error err, world1)
  | (.ok body, world1) => (.ok { Title := title, Body := body }, world1)

/-- Go `templates.ExecuteTemplate(w, name, p)`: writes the output of the
template (nothing is written when there is none) and returns its error. -/
def templates.ExecuteTemplate (w : ResponseWriter) (name : String) (p : Page) (world : World) :
    ResponseWriter × Option String × World :=
  let out := world.templates name p
  ((if out.1 = "" then w else w.Write out.1), out.2, world.log (.executeTemplate name p))

/-- Source: `func renderTemplate(w http.ResponseWriter, tmpl string, p *Page)`. -/
def renderTemplate (w : ResponseWriter) (tmpl : String) (p : Page) (world : World) :
    ResponseWriter × World :=
  match templates.ExecuteTemplate w (tmpl ++ ".html") p world with
  | (w1, some err, world1) => (http.Error w1 err http.StatusInternalServerError, world1)
  | (w1, none, world1) => (w1, world1)

/-- Source: `func makeHandler(fn func(http.ResponseWriter, *http.Request, string)) http.HandlerFunc`.
Indexing `m[2]` outside the slice would panic. -/
def makeHandler (fn : ResponseWriter → Request → String → World → HandlerResult) : HandlerFunc :=
  fun w r world =>
    match validPath.FindStringSubmatch r.Path with
    | none => .ok (http.NotFound w r, world)
    | some m =>
      match m[2]? with
      | some title => fn w r title world
      | none => .error "runtime error: index out of range [2]"

/-- Source: `func viewHandler(w http.ResponseWriter, r *http.Request, title string)`. -/
def viewHandler (w : ResponseWriter) (r : Request) (title : String) (world : World) :
    HandlerResult :=
  match loadPage title world with
  | (.error _, world1) => .ok (http.Redirect w r ("/edit/" ++ title) http.StatusFound, world1)
  | (.ok p, world1) => .ok (renderTemplate w "view" p world1)

/-- Source: `func editHandler(w http.ResponseWriter, r *http.Request, title string)`. -/
def editHandler (w : ResponseWriter) (_r : Request) (title : String) (world : World) :
    HandlerResult :=
  match loadPage title world with
  | (.error _, world1) => .ok (renderTemplate w "edit" { Title := title, Body := [] } world1)
  | (.ok p, world1) => .ok (renderTemplate w "edit" p world1)

/-- Source: `func saveHandler(w http.ResponseWriter, r *http.Request, title string)`. -/
def saveHandler (w : ResponseWriter) (r : Request) (title : String) (world : World) :
    HandlerResult :=
  let body := r.FormValue "body"
  let p : Page := { Title := title, Body := body }
  match p.save world with
  | (some err, world1) => .ok (http.Error w err http.StatusInternalServerError, world1)
  | (none, world1) => .ok (http.Redirect w r ("/view/" ++ title) http.StatusFound, world1)

/-- Source: `func homePageHandler(w http.ResponseWriter, r *http.Request)`. -/
def homePageHandler : HandlerFunc := fun w r world =>
  .ok (http.Redirect w r "/view/FrontPage" http.StatusFound, world)

/-- Source: `func personHandler(w http.ResponseWriter, req *http.Request)`.
After a decode error the function does not return: it goes on to
`person.save()` with whatever the decoder left in `person`.  The
`log.Printf` line is not modelled. -/
def personHandler : HandlerFunc := fun w req world =>
  if req.Method = "POST" then
    let decoded := world.jsonDecode req.Body
    let person := decoded.1
    let w1 :=
      match decoded.2 with
      | some err => http.Error w ("Invalid Person request: " ++ err) http.StatusInternalServerError
      | none => w
    match person.save world with
    | .error msg => .error msg
    | .ok (some err, world1) =>
      .ok (http.Error w1 ("Failed to save your person: " ++ err) http.StatusInternalServerError,
        world1)
    | .ok (none, world1) => .ok (w1.Write ("We saved " ++ person.Name ++ " for you"), world1)
  else
    .ok (http.Error w ("personHandler currently does not support " ++ req.Method ++ " requests")
      http.StatusInternalServerError, world)

/-- A `http.ServeMux`: the registered (pattern, handler) pairs. -/
structure ServeMux where
  entries : List (String × HandlerFunc)

/-- Go `mux.HandleFunc(pattern, handler)`. -/
def ServeMux.HandleFunc (mux : ServeMux) (pattern : String) (handler : HandlerFunc) : ServeMux :=
  ⟨mux.entries ++ [(pattern, handler)]⟩

/-- Whether a registered pattern matches a path: a pattern ending in `/`
names a subtree and matches every path it is a prefix of, any other pattern
matches only itself. -/
def patternMatches (pattern path : String) : Bool :=
  if pattern.data.getLast? = some '/' then pattern.data.isPrefixOf path.data
  else decide (pattern = path)

/-- The entry the mux selects: among the matching patterns the longest. -/
def ServeMux.find (mux : ServeMux) (path : String) : Option (String × HandlerFunc) :=
  (mux.entries.filter (fun e => patternMatches e.1 path)).foldl
    (fun best e =>
      match best with
      | none => some e
      | some b => if b.1.data.length < e.1.data.length then some e else some b)
    none

/-- Go `mux.ServeHTTP(w, r)`: dispatch to the handler of the selected
pattern, `http.NotFound` when no pattern matches.  (The redirects with which
net/http answers a path that is not in canonical form are not modelled.) -/
def ServeMux.ServeHTTP (mux : ServeMux) : HandlerFunc := fun w r world =>
  match mux.find r.Path with
  | some e => e.2 w r world
  | none => .ok (http.NotFound w r, world)

/-- Source: the route registrations of `func main()`. -/
def main : ServeMux :=
  (((((⟨[]⟩ : ServeMux).HandleFunc "/view/" (makeHandler viewHandler)).HandleFunc "/edit/"
    (makeHandler editHandler)).HandleFunc "/save/" (makeHandler saveHandler)).HandleFunc
    "/person/" personHandler).HandleFunc "/" homePageHandler

/-- File names passed to `ioutil.ReadFile` or `ioutil.WriteFile` in a trace. -/
def fileNames (trace : List Event) : List String :=
  trace.filterMap fun e =>
    match e with
    | .readFile name => some name
    | .writeFile name _ _ => some name
    | _ => none

/-- The read or write target of the page whose title is `t`, for a valid `t`:
the only shape of file name the page routes may touch. -/
def pageFile (name : String) : Prop :=
  ∃ t, validTitle t ∧ (∀ c ∈ t.data, c ≠ '/' ∧ c ≠ '\\' ∧ c ≠ '.') ∧ name = "data/" ++ t ++ ".txt"

/-- Trace after a handler has run; a panic in `GetDb` happens before any
recorded call. -/
def traceAfter (world : World) (res : HandlerResult) : List Event :=
  match res with
  | .ok (_, world1) => world1.trace
  | .error _ => world.trace

/-- A handler outcome whose recorded calls, beyond those already in the trace,
read and write page files only. -/
def onlyPageFiles (world : World) (res : HandlerResult) : Prop :=
  ∃ evs, traceAfter world res = world.trace ++ evs ∧ ∀ name ∈ fileNames evs, pageFile name

/-- The statement `Person.save` executes. -/
def insertPerson : String := "INSERT INTO PERSON (NAME, AGE, EYE_COLOR) VALUES (?, ?, ?)"

/-- A decoder for the example world: the results `encoding/json` gives on the
two request bodies used in the examples. -/
def exampleDecode (body : String) : Person × Option String :=
  if body = "\x7b\"name\":\"Alice\",\"age\":30,\"eyeColor\":\"blue\"\x7d" then
    ({ Id := 0, Name := "Alice", Age := 30, EyeColor := "blue" }, none)
  else if body = "\x7b" then
    ({ Id := 0, Name := "", Age := 0, EyeColor := "" }, some "unexpected EOF")
  else ({ Id := 0, Name := "", Age := 0, EyeColor := "" }, some "invalid character")

/-- An example world: empty storage area in which every write succeeds, a
reachable database with an empty PERSON table that accepts every row, and
templates that print the page title. -/
def exampleWorld : World :=
  { fs := { read := fun name => .error ("open " ++ name ++ ": no such file or directory"),
            writeErr := fun _ => none }
    db := { connErr := none, insertErr := fun _ _ _ => none, PERSON := [] }
    templates := fun name p => (name ++ ": " ++ p.Title, none)
    jsonDecode := exampleDecode
    trace := [] }

/-- The example world with a storage area that refuses every write. -/
def readOnlyWorld : World :=
  { exampleWorld with
    fs := { read := exampleWorld.fs.read, writeErr := fun _ => some "permission denied" } }

/-! ## The matcher on `validPath` -/

theorem inRanges_alnum (c : Char) :
    inRanges [('a', 'z'), ('A', 'Z'), ('0', '9')] c = true ↔ Alnum c := by
  simp [inRanges, Alnum]

theorem searchFrom_bot_succ (r : Regex) (p : Nat) (s : List Char) :
    searchFrom (.seq .bot r) (p + 1) s = none := by
  induction s generalizing p with
  | nil => simp [searchFrom, matchK]
  | cons x xs ih => simp [searchFrom, matchK, ih]

theorem searchFrom_bot_zero (r : Regex) (s : List Char) :
    searchFrom (.seq .bot r) 0 s =
      matchK r ⟨0, s, []⟩ (fun st => some { st with caps := (0, 0, st.pos) :: st.caps }) := by
  cases s with
  | nil => simp [searchFrom, matchK]
  | cons x xs => simp [searchFrom, matchK, searchFrom_bot_succ]

theorem matchK_lit (c : Char) (cs : List Char) (st : MState) (k : MState → Option MState) :
    matchK (Regex.lit c cs) st k =
      if (c :: cs).isPrefixOf st.rest = true then
        k { st with pos := st.pos + (cs.length + 1), rest := st.rest.drop (cs.length + 1) }
      else none := by
  induction cs generalizing c st with
  | nil =>
    obtain ⟨p, rest, caps⟩ := st
    cases rest with
    | nil => simp [Regex.lit, matchK]
    | cons x xs =>
      by_cases h : x = c
      · subst h; simp [Regex.lit, matchK]
      · have h2 : ¬ c = x := fun e => h e.symm
        simp [Regex.lit, matchK, h, h2]
  | cons d ds ih =>
    obtain ⟨p, rest, caps⟩ := st
    cases rest with
    | nil => simp [Regex.lit, matchK]
    | cons x xs =>
      by_cases h : x = c
      · subst h
        simp [Regex.lit, matchK, ih, Nat.add_assoc, Nat.add_comm 1]
      · have h2 : ¬ c = x := fun e => h e.symm
        simp [Regex.lit, matchK, h, h2]

theorem plusLoop_cls (rs : List (Char × Char))
    (step : MState → (MState → Option MState) → Option MState)
    (hstep : ∀ s j, step s j = matchK (.cls rs) s j)
    (k : MState → Option MState)
    (hk : ∀ st, st.rest ≠ [] → k st = none) (t : List Char) (p : Nat)
    (caps : List (Nat × Nat × Nat)) :
    plusLoop step t.length ⟨p, t, caps⟩ k =
      if t ≠ [] ∧ t.all (inRanges rs) = true then k ⟨p + t.length, [], caps⟩ else none := by
  induction t generalizing p with
  | nil => simp [plusLoop, hstep, matchK]
  | cons x xs ih =>
    by_cases hx : inRanges rs x = true
    · simp only [List.length_cons, plusLoop, hstep, matchK, hx, if_true, Nat.lt_succ_self, ih]
      by_cases hxs : xs = []
      · subst hxs; simp [hx]
      · have hfall : k ⟨p + 1, xs, caps⟩ = none := hk _ hxs
        by_cases hall : xs.all (inRanges rs) = true
        · have : p + 1 + xs.length = p + (xs.length + 1) := by omega
          simp only [hxs, hall, hfall, this]
          cases k ⟨p + (xs.length + 1), [], caps⟩ <;> simp [hx, hall, hxs]
        · simp [hxs, hall, hfall, hx]
    · simp [plusLoop, hstep, matchK, hx]

theorem matchK_plus_cls_eot (rs : List (Char × Char)) (i : Nat) (st : MState)
    (k : MState → Option MState) :
    matchK (.seq (.group i (.plus (.cls rs))) .eot) st k =
      if st.rest ≠ [] ∧ st.rest.all (inRanges rs) = true then
        k ⟨st.pos + st.rest.length, [], (i, st.pos, st.pos + st.rest.length) :: st.caps⟩
      else none := by
  obtain ⟨p, t, caps⟩ := st
  unfold matchK
  unfold matchK
  unfold matchK
  rw [plusLoop_cls rs _ (fun _ _ => rfl) _ _ t p caps]
  · simp [matchK]
  · intro st h; simp [matchK, h]

theorem matchK_char (c : Char) (st : MState) (k : MState → Option MState) :
    matchK (.char c) st k =
      match st.rest with
      | [] => none
      | x :: xs => if x = c then k { st with pos := st.pos + 1, rest := xs } else none := rfl

theorem matchK_seq (a b : Regex) (st : MState) (k : MState → Option MState) :
    matchK (.seq a b) st k = matchK a st (fun st1 => matchK b st1 k) := rfl

theorem matchK_alt (a b : Regex) (st : MState) (k : MState → Option MState) :
    matchK (.alt a b) st k = (matchK a st k).orElse (fun _ => matchK b st k) := rfl

theorem matchK_group (i : Nat) (a : Regex) (st : MState) (k : MState → Option MState) :
    matchK (.group i a) st k =
      matchK a st (fun st1 => k { st1 with caps := (i, st.pos, st1.pos) :: st1.caps }) := rfl

theorem matchK_slash_title_eot (rs : List (Char × Char)) (i : Nat) (st : MState)
    (k : MState → Option MState) :
    matchK (.seq (.char '/') (.seq (.group i (.plus (.cls rs))) .eot)) st k =
      match st.rest with
      | [] => none
      | x :: t =>
        if x = '/' ∧ t ≠ [] ∧ t.all (inRanges rs) = true then
          k ⟨st.pos + 1 + t.length, [], (i, st.pos + 1, st.pos + 1 + t.length) :: st.caps⟩
        else none := by
  obtain ⟨p, rest, caps⟩ := st
  rw [matchK_seq, matchK_char]
  cases rest with
  | nil => rfl
  | cons x t =>
    by_cases hx : x = '/'
    · simp only [hx, if_true, matchK_plus_cls_eot, true_and]
    · simp [hx]

theorem orElse_eq_some {α : Type} (a : Option α) (b : Unit → Option α) (r : α) :
    a.orElse b = some r ↔ a = some r ∨ (a = none ∧ b () = some r) := by
  cases a <;> simp [Option.orElse]

theorem isPrefixOf_split (a rest : List Char) (h : a.isPrefixOf rest = true) :
    rest = a ++ rest.drop a.length := by
  have h1 : a <+: rest := List.isPrefixOf_iff_prefix.mp h
  obtain ⟨u, rfl⟩ := h1
  simp

theorem all_inRanges_alnum (t : List Char) :
    t.all (inRanges [('a', 'z'), ('A', 'Z'), ('0', '9')]) = true ↔ ∀ c ∈ t, Alnum c := by
  simp only [List.all_eq_true, inRanges_alnum]

theorem altBranch_iff (a : List Char) (ha : a.length = 4) (xs : List Char) (st : MState) :
    (if a.isPrefixOf xs = true then
        match List.drop 4 xs with
        | [] => none
        | x :: t =>
          if x = '/' ∧ t ≠ [] ∧ t.all (inRanges [('a', 'z'), ('A', 'Z'), ('0', '9')]) = true then
            some (finalState t)
          else none
      else none) = some st ↔
      ∃ t, xs = a ++ '/' :: t ∧ t ≠ [] ∧ (∀ c ∈ t, Alnum c) ∧ st = finalState t := by
  constructor
  · intro h
    by_cases hp : a.isPrefixOf xs = true
    · rw [if_pos hp] at h
      have hsplit := isPrefixOf_split a xs hp
      rw [ha] at hsplit
      generalize List.drop 4 xs = u at h hsplit
      cases u with
      | nil => simp at h
      | cons x t =>
        simp only at h
        split_ifs at h with hc
        obtain ⟨hx, ht, hall⟩ := hc
        subst hx
        exact ⟨t, hsplit, ht, (all_inRanges_alnum t).mp hall, (Option.some.inj h).symm⟩
    · rw [if_neg hp] at h
      simp at h
  · rintro ⟨t, rfl, ht, hall, rfl⟩
    have hp : a.isPrefixOf (a ++ '/' :: t) = true := by
      rw [List.isPrefixOf_iff_prefix]; exact List.prefix_append _ _
    have hd : List.drop 4 (a ++ '/' :: t) = '/' :: t := by
      rw [← ha]; simp
    rw [if_pos hp, hd]
    simp [ht, (all_inRanges_alnum t).mpr hall]

theorem validPath_search_iff (s : List Char) (st : MState) :
    searchFrom validPath.re 0 s = some st ↔
      ∃ a t, a ∈ actionWords ∧ t ≠ [] ∧ (∀ c ∈ t, Alnum c) ∧ s = '/' :: (a ++ '/' :: t) ∧
        st = finalState t := by
  simp only [validPath, searchFrom_bot_zero]
  simp only [↓ matchK_slash_title_eot, matchK_seq, matchK_group, matchK_alt, matchK_lit,
    matchK_char]
  cases s with
  | nil => simp
  | cons x xs =>
    simp only [List.length_cons, List.length_nil, Nat.zero_add, Nat.reduceAdd]
    have e : ∀ t : List Char, (⟨6 + t.length, [], [(0, 0, 6 + t.length), (2, 6, 6 + t.length), (1, 1, 5)]⟩ : MState) = finalState t := fun _ => rfl
    simp only [e]
    by_cases hx : x = '/'
    · subst hx
      simp only [if_true]
      rw [orElse_eq_some, orElse_eq_some, altBranch_iff ['e', 'd', 'i', 't'] rfl,
        altBranch_iff ['s', 'a', 'v', 'e'] rfl, altBranch_iff ['v', 'i', 'e', 'w'] rfl]
      constructor
      · rintro (⟨t, rfl, ht, hall, rfl⟩ | ⟨-, ⟨t, rfl, ht, hall, rfl⟩ | ⟨-, t, rfl, ht, hall, rfl⟩⟩)
        · exact ⟨_, t, by simp [actionWords], ht, hall, rfl, rfl⟩
        · exact ⟨_, t, by simp [actionWords], ht, hall, rfl, rfl⟩
        · exact ⟨_, t, by simp [actionWords], ht, hall, rfl, rfl⟩
      · rintro ⟨a, t, ha, ht, hall, hs, rfl⟩
        simp only [actionWords, List.mem_cons, List.mem_singleton, List.not_mem_nil, or_false] at ha
        have hxs : xs = a ++ '/' :: t := (List.cons.inj hs).2
        subst hxs
        rcases ha with rfl | rfl | rfl
        · exact Or.inl ⟨t, rfl, ht, hall, rfl⟩
        · refine Or.inr ⟨by simp [List.isPrefixOf], Or.inl ⟨t, rfl, ht, hall, rfl⟩⟩
        · refine Or.inr ⟨by simp [List.isPrefixOf], Or.inr ⟨by simp [List.isPrefixOf], t, rfl, ht, hall, rfl⟩⟩
    · simp only [hx, if_false]
      constructor
      · intro h; simp at h
      · rintro ⟨a, t, -, -, -, hs, -⟩
        exact absurd (List.cons.inj hs).1 hx


theorem submatches_finalState (a t : List Char) (ha : a ∈ actionWords) :
    (List.range 3).map (submatch ('/' :: (a ++ '/' :: t)) (finalState t).caps) =
      [String.mk ('/' :: (a ++ '/' :: t)), String.mk a, String.mk t] := by
  have hr : List.range 3 = [0, 1, 2] := rfl
  simp only [actionWords, List.mem_cons, List.mem_singleton, List.not_mem_nil, or_false] at ha
  have h6 : ∀ n : Nat, 6 + n = n + 1 + 1 + 1 + 1 + 1 + 1 := fun n => by omega
  rcases ha with rfl | rfl | rfl <;>
    simp [hr, submatch, finalState, List.lookup, h6]

theorem FindStringSubmatch_validPath (s : String) (m : List String) :
    validPath.FindStringSubmatch s = some m ↔
      ∃ a t, a ∈ actions ∧ validTitle t ∧ s = "/" ++ a ++ "/" ++ t ∧ m = [s, a, t] := by
  unfold Regexp.FindStringSubmatch
  constructor
  · intro h
    cases hs : searchFrom validPath.re 0 s.data with
    | none => rw [hs] at h; simp at h
    | some st =>
      rw [hs] at h
      obtain ⟨a, t, ha, ht, hall, hdata, rfl⟩ := (validPath_search_iff _ _).mp hs
      have hm := submatches_finalState a t ha
      simp only at h
      rw [hdata, show validPath.numSubexp + 1 = 3 from rfl, hm] at h
      refine ⟨String.mk a, String.mk t, ?_, ⟨ht, hall⟩, ?_, ?_⟩
      · simp only [actionWords, List.mem_cons, List.mem_singleton, List.not_mem_nil,
          or_false] at ha
        rcases ha with rfl | rfl | rfl <;> decide
      · apply String.ext; simp [hdata]
      · rw [← Option.some.inj h]
        have : s = String.mk ('/' :: (a ++ '/' :: t)) := by apply String.ext; simp [hdata]
        rw [this]
  · rintro ⟨a, t, ha, ⟨ht, hall⟩, rfl, rfl⟩
    have ha2 : a.data ∈ actionWords := by
      simp only [actions, List.mem_cons, List.mem_singleton, List.not_mem_nil, or_false] at ha
      rcases ha with rfl | rfl | rfl <;> decide
    have hdata : ("/" ++ a ++ "/" ++ t).data = '/' :: (a.data ++ '/' :: t.data) := by simp
    have hs := (validPath_search_iff ("/" ++ a ++ "/" ++ t).data (finalState t.data)).mpr
      ⟨a.data, t.data, ha2, ht, hall, hdata, rfl⟩
    rw [hs]
    simp only
    rw [hdata, show validPath.numSubexp + 1 = 3 from rfl, submatches_finalState _ _ ha2, ← hdata]

/-! ## Page store -/

/-- C1: for every title matching `^[a-zA-Z0-9]+$`, every body and every state
of the storage area in which the write succeeds, `save` followed by
`loadPage(title)` returns no error and the page with that title and exactly
that body. -/
theorem save_then_loadPage (title : String) (body : List UInt8) (world world1 : World)
    (_htitle : validTitle title)
    (hsave : Page.save { Title := title, Body := body } world = (none, world1)) :
    (loadPage title world1).1 = .ok { Title := title, Body := body } := by
  unfold Page.save ioutil.WriteFile at hsave
  simp only at hsave
  cases hw : world.fs.writeErr ("data/" ++ title ++ ".txt") with
  | some err => rw [hw] at hsave; simp at hsave
  | none =>
    rw [hw] at hsave
    have h1 := (Prod.mk.inj hsave).2
    subst h1
    simp [loadPage, ioutil.ReadFile, World.log]

theorem save_then_loadPage_witness :
    validTitle "Test1" ∧
      (loadPage "Test1"
        (Page.save { Title := "Test1", Body := [72, 105] } exampleWorld).2).1 =
        .ok { Title := "Test1", Body := [72, 105] } :=
  ⟨by decide, save_then_loadPage "Test1" [72, 105] exampleWorld _ (by decide) rfl⟩

/-! ## Router -/

theorem makeHandler_matched (fn : ResponseWriter → Request → String → World → HandlerResult)
    (w : ResponseWriter) (r : Request) (world : World) (a t : String) (ha : a ∈ actions)
    (ht : validTitle t) (hp : r.Path = "/" ++ a ++ "/" ++ t) :
    makeHandler fn w r world = fn w r t world := by
  have hm := (FindStringSubmatch_validPath r.Path [r.Path, a, t]).mpr ⟨a, t, ha, ht, hp, rfl⟩
  simp [makeHandler, hm]

theorem makeHandler_unmatched (fn : ResponseWriter → Request → String → World → HandlerResult)
    (w : ResponseWriter) (r : Request) (world : World)
    (h : ¬ ∃ a t, a ∈ actions ∧ validTitle t ∧ r.Path = "/" ++ a ++ "/" ++ t) :
    makeHandler fn w r world = .ok (http.NotFound w r, world) := by
  cases hm : validPath.FindStringSubmatch r.Path with
  | none => simp [makeHandler, hm]
  | some m =>
    obtain ⟨a, t, ha, ht, hp, -⟩ := (FindStringSubmatch_validPath r.Path m).mp hm
    exact absurd ⟨a, t, ha, ht, hp⟩ h

/-- C3: for every request path that is not `/{action}/{title}` with action in
edit, save, view and a non-empty title over `[a-zA-Z0-9]`, the handler built by
`makeHandler` answers 404 Not Found whatever the wrapped `fn` is and leaves the
world (storage, trace) untouched: `fn` is not invoked. -/
theorem makeHandler_not_found (fn : ResponseWriter → Request → String → World → HandlerResult)
    (w : ResponseWriter) (r : Request) (world : World)
    (h : ¬ ∃ a t, a ∈ actions ∧ validTitle t ∧ r.Path = "/" ++ a ++ "/" ++ t) :
    makeHandler fn w r world = .ok (http.NotFound w r, world) ∧
      (http.NotFound ResponseWriter.fresh r).status = some 404 ∧
      (http.NotFound ResponseWriter.fresh r).body = "404 page not found\n" :=
  ⟨makeHandler_unmatched fn w r world h, rfl, rfl⟩

theorem no_match_of_none (p : String) (h : validPath.FindStringSubmatch p = none) :
    ¬ ∃ a t, a ∈ actions ∧ validTitle t ∧ p = "/" ++ a ++ "/" ++ t := by
  rintro ⟨a, t, ha, ht, hp⟩
  have hm := (FindStringSubmatch_validPath p [p, a, t]).mpr ⟨a, t, ha, ht, hp, rfl⟩
  rw [h] at hm
  cases hm

theorem makeHandler_not_found_witness :
    (¬ ∃ a t, a ∈ actions ∧ validTitle t ∧
        (⟨"GET", "/view/../secret", [], ""⟩ : Request).Path = "/" ++ a ++ "/" ++ t) ∧
      makeHandler viewHandler ResponseWriter.fresh ⟨"GET", "/view/../secret", [], ""⟩ exampleWorld =
        .ok (http.NotFound ResponseWriter.fresh ⟨"GET", "/view/../secret", [], ""⟩,
          exampleWorld) ∧
      makeHandler saveHandler ResponseWriter.fresh ⟨"POST", "/save/", [("body", [120])], ""⟩
          exampleWorld =
        .ok (http.NotFound ResponseWriter.fresh ⟨"POST", "/save/", [("body", [120])], ""⟩,
          exampleWorld) ∧
      makeHandler editHandler ResponseWriter.fresh ⟨"GET", "/edit/a b", [], ""⟩ exampleWorld =
        .ok (http.NotFound ResponseWriter.fresh ⟨"GET", "/edit/a b", [], ""⟩, exampleWorld) ∧
      makeHandler viewHandler ResponseWriter.fresh ⟨"GET", "/view/a-b/c", [], ""⟩ exampleWorld =
        .ok (http.NotFound ResponseWriter.fresh ⟨"GET", "/view/a-b/c", [], ""⟩, exampleWorld) :=
  ⟨no_match_of_none "/view/../secret" (by decide),
    (makeHandler_not_found viewHandler ResponseWriter.fresh ⟨"GET", "/view/../secret", [], ""⟩
      exampleWorld (no_match_of_none "/view/../secret" (by decide))).1,
    (makeHandler_not_found saveHandler ResponseWriter.fresh
      ⟨"POST", "/save/", [("body", [120])], ""⟩ exampleWorld
      (no_match_of_none "/save/" (by decide))).1,
    (makeHandler_not_found editHandler ResponseWriter.fresh ⟨"GET", "/edit/a b", [], ""⟩
      exampleWorld (no_match_of_none "/edit/a b" (by decide))).1,
    (makeHandler_not_found viewHandler ResponseWriter.fresh ⟨"GET", "/view/a-b/c", [], ""⟩
      exampleWorld (no_match_of_none "/view/a-b/c" (by decide))).1⟩

theorem main_find (pat a t : String) (fn : HandlerFunc)
    (h : (pat, a, fn) ∈ [("/view/", "view", makeHandler viewHandler),
      ("/edit/", "edit", makeHandler editHandler), ("/save/", "save", makeHandler saveHandler)]) :
    main.find ("/" ++ a ++ "/" ++ t) = some (pat, fn) := by
  simp only [List.mem_cons, List.mem_singleton, List.not_mem_nil, or_false, Prod.mk.injEq] at h
  rcases h with ⟨rfl, rfl, rfl⟩ | ⟨rfl, rfl, rfl⟩ | ⟨rfl, rfl, rfl⟩ <;>
    simp [main, ServeMux.HandleFunc, ServeMux.find, patternMatches, List.filter,
      List.isPrefixOf, List.getLast?] <;> decide

/-- C4: for every request path `/{action}/{title}` with action view, edit or
save and a non-empty title over `[a-zA-Z0-9]`, the routes registered by `main`
run the handler bound to that action, once, on exactly that title: serving the
request is the same as one call of `viewHandler`, `editHandler` or
`saveHandler` with the title segment. -/
theorem router_dispatch (w : ResponseWriter) (r : Request) (world : World) (t : String)
    (ht : validTitle t) :
    (r.Path = "/" ++ "view" ++ "/" ++ t → main.ServeHTTP w r world = viewHandler w r t world) ∧
    (r.Path = "/" ++ "edit" ++ "/" ++ t → main.ServeHTTP w r world = editHandler w r t world) ∧
    (r.Path = "/" ++ "save" ++ "/" ++ t → main.ServeHTTP w r world = saveHandler w r t world) := by
  refine ⟨fun hp => ?_, fun hp => ?_, fun hp => ?_⟩
  · have hf := main_find "/view/" "view" t (makeHandler viewHandler) (by simp)
    rw [← hp] at hf
    simp only [ServeMux.ServeHTTP, hf]
    exact makeHandler_matched viewHandler w r world "view" t (by decide) ht hp
  · have hf := main_find "/edit/" "edit" t (makeHandler editHandler) (by simp)
    rw [← hp] at hf
    simp only [ServeMux.ServeHTTP, hf]
    exact makeHandler_matched editHandler w r world "edit" t (by decide) ht hp
  · have hf := main_find "/save/" "save" t (makeHandler saveHandler) (by simp)
    rw [← hp] at hf
    simp only [ServeMux.ServeHTTP, hf]
    exact makeHandler_matched saveHandler w r world "save" t (by decide) ht hp

theorem router_dispatch_witness :
    validTitle "Test1" ∧
      main.ServeHTTP ResponseWriter.fresh ⟨"GET", "/view/Test1", [], ""⟩ exampleWorld =
        viewHandler ResponseWriter.fresh ⟨"GET", "/view/Test1", [], ""⟩ "Test1" exampleWorld ∧
      main.ServeHTTP ResponseWriter.fresh ⟨"POST", "/save/Test1", [("body", [72, 105])], ""⟩
          exampleWorld =
        saveHandler ResponseWriter.fresh ⟨"POST", "/save/Test1", [("body", [72, 105])], ""⟩
          "Test1" exampleWorld :=
  ⟨by decide,
    (router_dispatch ResponseWriter.fresh ⟨"GET", "/view/Test1", [], ""⟩ exampleWorld "Test1"
      (by decide)).1 rfl,
    (router_dispatch ResponseWriter.fresh ⟨"POST", "/save/Test1", [("body", [72, 105])], ""⟩
      exampleWorld "Test1" (by decide)).2.2 rfl⟩

/-! ## File names reached from the routes -/

theorem alnum_not_special (c : Char) (h : Alnum c) : c ≠ '/' ∧ c ≠ '\\' ∧ c ≠ '.' := by
  refine ⟨?_, ?_, ?_⟩ <;> (rintro rfl; revert h; decide)

theorem pageFile_of_validTitle (t : String) (ht : validTitle t) :
    pageFile ("data/" ++ t ++ ".txt") :=
  ⟨t, ht, fun c hc => alnum_not_special c (ht.2 c hc), rfl⟩

theorem loadPage_snd (title : String) (world : World) :
    (loadPage title world).2 = world.log (.readFile ("data/" ++ title ++ ".txt")) := by
  simp only [loadPage, ioutil.ReadFile]
  cases world.fs.read ("data/" ++ title ++ ".txt") <;> rfl

theorem renderTemplate_snd (w : ResponseWriter) (tmpl : String) (p : Page) (world : World) :
    (renderTemplate w tmpl p world).2 = world.log (.executeTemplate (tmpl ++ ".html") p) := by
  simp only [renderTemplate, templates.ExecuteTemplate]
  cases (world.templates (tmpl ++ ".html") p).2 <;> rfl

theorem viewHandler_error (w : ResponseWriter) (r : Request) (title : String) (world : World)
    (err : String) (h : (loadPage title world).1 = .error err) :
    viewHandler w r title world =
      .ok (http.Redirect w r ("/edit/" ++ title) http.StatusFound, (loadPage title world).2) := by
  unfold viewHandler
  cases hl : loadPage title world with
  | mk res world1 =>
    rw [hl] at h
    simp only at h
    subst h
    rfl

theorem viewHandler_ok (w : ResponseWriter) (r : Request) (title : String) (world : World)
    (p : Page) (h : (loadPage title world).1 = .ok p) :
    viewHandler w r title world = .ok (renderTemplate w "view" p (loadPage title world).2) := by
  unfold viewHandler
  cases hl : loadPage title world with
  | mk res world1 =>
    rw [hl] at h
    simp only at h
    subst h
    rfl

theorem editHandler_error (w : ResponseWriter) (r : Request) (title : String) (world : World)
    (err : String) (h : (loadPage title world).1 = .error err) :
    editHandler w r title world =
      .ok (renderTemplate w "edit" { Title := title, Body := [] } (loadPage title world).2) := by
  unfold editHandler
  cases hl : loadPage title world with
  | mk res world1 =>
    rw [hl] at h
    simp only at h
    subst h
    rfl

theorem editHandler_ok (w : ResponseWriter) (r : Request) (title : String) (world : World)
    (p : Page) (h : (loadPage title world).1 = .ok p) :
    editHandler w r title world = .ok (renderTemplate w "edit" p (loadPage title world).2) := by
  unfold editHandler
  cases hl : loadPage title world with
  | mk res world1 =>
    rw [hl] at h
    simp only at h
    subst h
    rfl

theorem viewHandler_trace (w : ResponseWriter) (r : Request) (title : String) (world : World) :
    ∃ w1 world1 evs, viewHandler w r title world = .ok (w1, world1) ∧
      world1.trace = world.trace ++ evs ∧ fileNames evs = ["data/" ++ title ++ ".txt"] := by
  cases hl : (loadPage title world).1 with
  | error err =>
    refine ⟨_, _, [.readFile ("data/" ++ title ++ ".txt")],
      viewHandler_error w r title world err hl, ?_, rfl⟩
    rw [loadPage_snd]; rfl
  | ok p =>
    refine ⟨_, _, [.readFile ("data/" ++ title ++ ".txt"), .executeTemplate ("view" ++ ".html") p],
      viewHandler_ok w r title world p hl, ?_, rfl⟩
    show (renderTemplate w "view" p (loadPage title world).2).2.trace = _
    rw [renderTemplate_snd, loadPage_snd]; simp [World.log]

theorem editHandler_trace (w : ResponseWriter) (r : Request) (title : String) (world : World) :
    ∃ w1 world1 evs, editHandler w r title world = .ok (w1, world1) ∧
      world1.trace = world.trace ++ evs ∧ fileNames evs = ["data/" ++ title ++ ".txt"] := by
  cases hl : (loadPage title world).1 with
  | error err =>
    refine ⟨_, _, [.readFile ("data/" ++ title ++ ".txt"),
      .executeTemplate ("edit" ++ ".html") ⟨title, []⟩],
      editHandler_error w r title world err hl, ?_, rfl⟩
    show (renderTemplate w "edit" ⟨title, []⟩ (loadPage title world).2).2.trace = _
    rw [renderTemplate_snd, loadPage_snd]; simp [World.log]
  | ok p =>
    refine ⟨_, _, [.readFile ("data/" ++ title ++ ".txt"), .executeTemplate ("edit" ++ ".html") p],
      editHandler_ok w r title world p hl, ?_, rfl⟩
    show (renderTemplate w "edit" p (loadPage title world).2).2.trace = _
    rw [renderTemplate_snd, loadPage_snd]; simp [World.log]

theorem Page_save_snd_trace (p : Page) (world : World) :
    (p.save world).2.trace =
      world.trace ++ [.writeFile ("data/" ++ p.Title ++ ".txt") p.Body 0o600] := by
  simp only [Page.save, ioutil.WriteFile]
  cases world.fs.writeErr ("data/" ++ p.Title ++ ".txt") <;> rfl

theorem saveHandler_eq (w : ResponseWriter) (r : Request) (title : String) (world : World) :
    saveHandler w r title world =
      .ok ((match (Page.save ⟨title, r.FormValue "body"⟩ world).1 with
          | some err => http.Error w err http.StatusInternalServerError
          | none => http.Redirect w r ("/view/" ++ title) http.StatusFound),
        (Page.save ⟨title, r.FormValue "body"⟩ world).2) := by
  unfold saveHandler
  simp only
  cases hs : Page.save ⟨title, r.FormValue "body"⟩ world with
  | mk res world1 => cases res <;> rfl

theorem saveHandler_trace (w : ResponseWriter) (r : Request) (title : String) (world : World) :
    ∃ w1 world1 evs, saveHandler w r title world = .ok (w1, world1) ∧
      world1.trace = world.trace ++ evs ∧ fileNames evs = ["data/" ++ title ++ ".txt"] :=
  ⟨_, _, [.writeFile ("data/" ++ title ++ ".txt") (r.FormValue "body") 0o600],
    saveHandler_eq w r title world, Page_save_snd_trace _ world, rfl⟩

theorem makeHandler_onlyPageFiles
    (fn : ResponseWriter → Request → String → World → HandlerResult)
    (hfn : ∀ w r title world, ∃ w1 world1 evs, fn w r title world = .ok (w1, world1) ∧
      world1.trace = world.trace ++ evs ∧ fileNames evs = ["data/" ++ title ++ ".txt"])
    (w : ResponseWriter) (r : Request) (world : World) :
    (∃ w1 world1, makeHandler fn w r world = .ok (w1, world1)) ∧
      onlyPageFiles world (makeHandler fn w r world) := by
  cases hm : validPath.FindStringSubmatch r.Path with
  | none =>
    have h : makeHandler fn w r world = .ok (http.NotFound w r, world) := by
      simp [makeHandler, hm]
    rw [h]
    exact ⟨⟨_, _, rfl⟩, [], by simp [traceAfter], by simp [fileNames]⟩
  | some m =>
    obtain ⟨a, t, ha, ht, hp, -⟩ := (FindStringSubmatch_validPath r.Path m).mp hm
    rw [makeHandler_matched fn w r world a t ha ht hp]
    obtain ⟨w1, world1, evs, hres, htrace, hnames⟩ := hfn w r t world
    rw [hres]
    refine ⟨⟨_, _, rfl⟩, evs, htrace, ?_⟩
    intro name hname
    rw [hnames, List.mem_singleton] at hname
    subst hname
    exact pageFile_of_validTitle t ht

theorem foldl_best_mem (l : List (String × HandlerFunc)) (init : Option (String × HandlerFunc))
    (e : String × HandlerFunc)
    (h : l.foldl (fun best e =>
        match best with
        | none => some e
        | some b => if b.1.data.length < e.1.data.length then some e else some b) init = some e) :
    e ∈ l ∨ init = some e := by
  induction l generalizing init with
  | nil => exact Or.inr h
  | cons x xs ih =>
    rw [List.foldl_cons] at h
    rcases ih _ h with hmem | hinit
    · exact Or.inl (List.mem_cons_of_mem _ hmem)
    · cases init with
      | none =>
        simp only [Option.some.injEq] at hinit
        exact Or.inl (hinit ▸ List.mem_cons_self _ _)
      | some b =>
        simp only at hinit
        split_ifs at hinit
        · simp only [Option.some.injEq] at hinit
          exact Or.inl (hinit ▸ List.mem_cons_self _ _)
        · exact Or.inr hinit

theorem find_mem (mux : ServeMux) (path : String) (e : String × HandlerFunc)
    (h : mux.find path = some e) : e ∈ mux.entries := by
  rcases foldl_best_mem _ none e h with hmem | hnone
  · exact (List.mem_filter.mp hmem).1
  · cases hnone

theorem personHandler_onlyPageFiles (w : ResponseWriter) (r : Request) (world : World) :
    onlyPageFiles world (personHandler w r world) := by
  unfold personHandler
  by_cases hm : r.Method = "POST"
  · simp only [hm, if_true, Person.save, GetDb]
    cases hc : world.db.connErr with
    | some err => exact ⟨[], by simp [traceAfter], by simp [fileNames]⟩
    | none =>
      simp only [Database.Exec]
      cases hi : world.db.insertErr (world.jsonDecode r.Body).1.Name
        (world.jsonDecode r.Body).1.Age (world.jsonDecode r.Body).1.EyeColor with
      | some err =>
        exact ⟨[.exec insertPerson (world.jsonDecode r.Body).1.Name
          (world.jsonDecode r.Body).1.Age (world.jsonDecode r.Body).1.EyeColor],
          by simp [traceAfter, World.log, insertPerson], by simp [fileNames]⟩
      | none =>
        exact ⟨[.exec insertPerson (world.jsonDecode r.Body).1.Name
          (world.jsonDecode r.Body).1.Age (world.jsonDecode r.Body).1.EyeColor],
          by simp [traceAfter, World.log, insertPerson], by simp [fileNames]⟩
  · simp only [hm, if_false]
    exact ⟨[], by simp [traceAfter], by simp [fileNames]⟩

/-- C5: whatever the request path, every file name that the view, edit and
save routes hand to `ReadFile` or `WriteFile` is `"data/" + t + ".txt"` for a
non-empty `t` over `[a-zA-Z0-9]`, hence with no `/`, `\` or `.` inside `t`: the
path is matched against `validPath` before any file name is built.  This holds
for each wrapped handler (which also never panics) and for the whole mux of
`main`. -/
theorem routes_touch_only_page_files (w : ResponseWriter) (r : Request) (world : World) :
    (∀ h ∈ [makeHandler viewHandler, makeHandler editHandler, makeHandler saveHandler],
        (∃ w1 world1, h w r world = .ok (w1, world1)) ∧ onlyPageFiles world (h w r world)) ∧
      onlyPageFiles world (main.ServeHTTP w r world) := by
  have hv := makeHandler_onlyPageFiles viewHandler viewHandler_trace w r world
  have he := makeHandler_onlyPageFiles editHandler editHandler_trace w r world
  have hs := makeHandler_onlyPageFiles saveHandler saveHandler_trace w r world
  refine ⟨?_, ?_⟩
  · intro h hh
    simp only [List.mem_cons, List.mem_singleton, List.not_mem_nil, or_false] at hh
    rcases hh with rfl | rfl | rfl
    · exact hv
    · exact he
    · exact hs
  · unfold ServeMux.ServeHTTP
    cases hf : main.find r.Path with
    | none => exact ⟨[], by simp [traceAfter], by simp [fileNames]⟩
    | some e =>
      have hmem := find_mem main r.Path e hf
      simp only [main, ServeMux.HandleFunc, List.nil_append, List.cons_append, List.mem_cons,
        List.mem_singleton, List.not_mem_nil, or_false] at hmem
      rcases hmem with rfl | rfl | rfl | rfl | rfl
      · exact hv.2
      · exact he.2
      · exact hs.2
      · exact personHandler_onlyPageFiles w r world
      · exact ⟨[], by simp [traceAfter, homePageHandler], by simp [fileNames]⟩

theorem routes_touch_only_page_files_witness :
    traceAfter exampleWorld
        (main.ServeHTTP ResponseWriter.fresh ⟨"GET", "/view/../../etc/passwd", [], ""⟩
          exampleWorld) = [] ∧
      onlyPageFiles exampleWorld
        (main.ServeHTTP ResponseWriter.fresh ⟨"GET", "/view/../../etc/passwd", [], ""⟩
          exampleWorld) ∧
      traceAfter exampleWorld
        (main.ServeHTTP ResponseWriter.fresh ⟨"GET", "/view/Test1", [], ""⟩ exampleWorld) =
        [.readFile "data/Test1.txt"] ∧
      onlyPageFiles exampleWorld
        (main.ServeHTTP ResponseWriter.fresh ⟨"GET", "/view/Test1", [], ""⟩ exampleWorld) :=
  ⟨by decide,
    (routes_touch_only_page_files ResponseWriter.fresh ⟨"GET", "/view/../../etc/passwd", [], ""⟩
      exampleWorld).2,
    by decide,
    (routes_touch_only_page_files ResponseWriter.fresh ⟨"GET", "/view/Test1", [], ""⟩
      exampleWorld).2⟩

/-! ## Page handlers -/

theorem Redirect_fresh (r : Request) (url : String) (code : Nat) :
    (http.Redirect ResponseWriter.fresh r url code).status = some code ∧
      (http.Redirect ResponseWriter.fresh r url code).Get "Location" = some url := by
  by_cases hg : r.Method = "GET" <;> by_cases hh : r.Method = "HEAD" <;>
    simp [http.Redirect, ResponseWriter.fresh, ResponseWriter.Get, ResponseWriter.Set,
      ResponseWriter.WriteHeader, ResponseWriter.Write, List.lookup, List.filter, hg, hh]

theorem Error_fresh (msg : String) (code : Nat) :
    (http.Error ResponseWriter.fresh msg code).status = some code ∧
      (http.Error ResponseWriter.fresh msg code).body = msg ++ "\n" ∧
      (http.Error ResponseWriter.fresh msg code).Get "Location" = none := by
  simp [http.Error, ResponseWriter.fresh, ResponseWriter.Get, ResponseWriter.Set,
    ResponseWriter.WriteHeader, ResponseWriter.Write, List.lookup, List.filter]

/-- C6: for every title matching `^[a-zA-Z0-9]+$` (the titles `makeHandler`
passes on) for which `loadPage(title)` fails, `viewHandler` answers with a 302
redirect whose `Location` is `"/edit/" + title`, executes no template (the
only recorded call is the failed read) and does not answer 500. -/
theorem viewHandler_missing_page (r : Request) (title : String) (world : World) (err : String)
    (_htitle : validTitle title) (hload : (loadPage title world).1 = .error err) :
    ∃ w1 world1, viewHandler ResponseWriter.fresh r title world = .ok (w1, world1) ∧
      w1 = http.Redirect ResponseWriter.fresh r ("/edit/" ++ title) http.StatusFound ∧
      w1.status = some 302 ∧ w1.Get "Location" = some ("/edit/" ++ title) ∧ w1.code ≠ 500 ∧
      world1.trace = world.trace ++ [.readFile ("data/" ++ title ++ ".txt")] ∧
      ∀ name p, Event.executeTemplate name p ∈ world1.trace →
        Event.executeTemplate name p ∈ world.trace := by
  have hr := Redirect_fresh r ("/edit/" ++ title) http.StatusFound
  have ht : (loadPage title world).2.trace =
      world.trace ++ [.readFile ("data/" ++ title ++ ".txt")] := by
    rw [loadPage_snd]; rfl
  refine ⟨_, _, viewHandler_error ResponseWriter.fresh r title world err hload, rfl, hr.1, hr.2,
    ?_, ht, ?_⟩
  · unfold ResponseWriter.code
    rw [hr.1]
    decide
  · intro name p hmem
    rw [ht] at hmem
    simpa using hmem

theorem viewHandler_missing_page_witness :
    validTitle "Nope" ∧
      (loadPage "Nope" exampleWorld).1 = .error "open data/Nope.txt: no such file or directory" ∧
      ∃ w1 world1,
        viewHandler ResponseWriter.fresh ⟨"GET", "/view/Nope", [], ""⟩ "Nope" exampleWorld =
          .ok (w1, world1) ∧
        w1.status = some 302 ∧ w1.Get "Location" = some "/edit/Nope" ∧
        world1.trace = [.readFile "data/Nope.txt"] :=
  ⟨by decide, rfl,
    match viewHandler_missing_page ⟨"GET", "/view/Nope", [], ""⟩ "Nope" exampleWorld
      "open data/Nope.txt: no such file or directory" (by decide) rfl with
    | ⟨w1, world1, h, _, hs, hl, _, ht, _⟩ => ⟨w1, world1, h, hs, hl, ht⟩⟩

theorem renderTemplate_fresh_edit (p : Page) (world : World) :
    ((renderTemplate ResponseWriter.fresh "edit" p world).1.Get "Location" = none) ∧
      ((world.templates "edit.html" p).2 = none →
        (renderTemplate ResponseWriter.fresh "edit" p world).1.code = 200 ∧
        (renderTemplate ResponseWriter.fresh "edit" p world).1.body =
          (world.templates "edit.html" p).1) := by
  have hn : "edit" ++ ".html" = "edit.html" := by decide
  simp only [renderTemplate, templates.ExecuteTemplate, hn]
  cases he : (world.templates "edit.html" p).2 with
  | some err =>
    by_cases ho : (world.templates "edit.html" p).1 = "" <;>
      simp [ho, http.Error, ResponseWriter.fresh, ResponseWriter.Get, ResponseWriter.Set,
        ResponseWriter.WriteHeader, ResponseWriter.Write, List.lookup, List.filter]
  | none =>
    by_cases ho : (world.templates "edit.html" p).1 = "" <;>
      simp [ho, ResponseWriter.fresh, ResponseWriter.Get, ResponseWriter.code,
        ResponseWriter.WriteHeader, ResponseWriter.Write, List.lookup]

/-- C7: when `loadPage(title)` fails, `editHandler` neither reports the error
nor redirects: it executes the "edit" template on the page with that title and
an empty body, and the response is what the template produces (no `Location`
header; status 200 with the template output when the template itself does not
fail).  When `loadPage` succeeds it executes the "edit" template on exactly
the loaded page. -/
theorem editHandler_renders_form (r : Request) (title : String) (world : World) :
    (∀ err, (loadPage title world).1 = .error err →
      ∃ w1 world1, editHandler ResponseWriter.fresh r title world = .ok (w1, world1) ∧
        (w1, world1) = renderTemplate ResponseWriter.fresh "edit" { Title := title, Body := [] }
          (loadPage title world).2 ∧
        world1.trace = world.trace ++ [.readFile ("data/" ++ title ++ ".txt"),
          .executeTemplate "edit.html" { Title := title, Body := [] }] ∧
        w1.Get "Location" = none ∧
        ((world.templates "edit.html" { Title := title, Body := [] }).2 = none →
          w1.code = 200 ∧
          w1.body = (world.templates "edit.html" { Title := title, Body := [] }).1)) ∧
    (∀ p, (loadPage title world).1 = .ok p →
      ∃ w1 world1, editHandler ResponseWriter.fresh r title world = .ok (w1, world1) ∧
        (w1, world1) = renderTemplate ResponseWriter.fresh "edit" p (loadPage title world).2 ∧
        world1.trace = world.trace ++ [.readFile ("data/" ++ title ++ ".txt"),
          .executeTemplate "edit.html" p]) := by
  have hn : "edit" ++ ".html" = "edit.html" := by decide
  have htr : ∀ p : Page,
      (renderTemplate ResponseWriter.fresh "edit" p (loadPage title world).2).2.trace =
        world.trace ++ [.readFile ("data/" ++ title ++ ".txt"),
          .executeTemplate "edit.html" p] := by
    intro p
    rw [renderTemplate_snd, loadPage_snd, hn]
    simp [World.log]
  have htm : (loadPage title world).2.templates = world.templates := by
    rw [loadPage_snd]; rfl
  refine ⟨fun err herr => ⟨_, _, editHandler_error _ r title world err herr, rfl, htr _, ?_, ?_⟩,
    fun p hp => ⟨_, _, editHandler_ok _ r title world p hp, rfl, htr p⟩⟩
  · exact (renderTemplate_fresh_edit _ _).1
  · have h2 := (renderTemplate_fresh_edit { Title := title, Body := [] }
      (loadPage title world).2).2
    rw [htm] at h2
    exact h2

theorem editHandler_renders_form_witness :
    (loadPage "Nope" exampleWorld).1 = .error "open data/Nope.txt: no such file or directory" ∧
      ∃ w1 world1,
        editHandler ResponseWriter.fresh ⟨"GET", "/edit/Nope", [], ""⟩ "Nope" exampleWorld =
          .ok (w1, world1) ∧
        world1.trace = [.readFile "data/Nope.txt",
          .executeTemplate "edit.html" { Title := "Nope", Body := [] }] ∧
        w1.Get "Location" = none :=
  ⟨rfl,
    match (editHandler_renders_form ⟨"GET", "/edit/Nope", [], ""⟩ "Nope" exampleWorld).1
      "open data/Nope.txt: no such file or directory" rfl with
    | ⟨w1, world1, h, _, ht, hl, _⟩ => ⟨w1, world1, h, ht, hl⟩⟩

theorem Page_save_fst (p : Page) (world : World) :
    (p.save world).1 = world.fs.writeErr ("data/" ++ p.Title ++ ".txt") := by
  simp only [Page.save, ioutil.WriteFile]
  cases world.fs.writeErr ("data/" ++ p.Title ++ ".txt") <;> rfl

theorem Page_save_read (p : Page) (world : World) (h : (p.save world).1 = none) :
    (p.save world).2.fs.read ("data/" ++ p.Title ++ ".txt") = .ok p.Body := by
  rw [Page_save_fst] at h
  simp [Page.save, ioutil.WriteFile, h]

/-- C8: for every title matching `^[a-zA-Z0-9]+$` (the titles `makeHandler`
passes on) and every request, `saveHandler` performs exactly one write, of
exactly the bytes of the form field "body" to the file of the title, and the
response follows the result of that write: on success a 302 redirect whose
`Location` is `"/view/" + title` (and the file then holds those bytes); on
failure status 500 with the error message as body and no `Location` header. -/
theorem saveHandler_write_then_respond (r : Request) (title : String) (world : World)
    (_htitle : validTitle title) :
    ∃ w1 world1, saveHandler ResponseWriter.fresh r title world = .ok (w1, world1) ∧
      world1 = (Page.save { Title := title, Body := (r.Form.lookup "body").getD [] } world).2 ∧
      world1.trace = world.trace ++
        [.writeFile ("data/" ++ title ++ ".txt") ((r.Form.lookup "body").getD []) 0o600] ∧
      ((Page.save { Title := title, Body := (r.Form.lookup "body").getD [] } world).1 = none →
        w1.status = some 302 ∧ w1.Get "Location" = some ("/view/" ++ title) ∧
        world1.fs.read ("data/" ++ title ++ ".txt") = .ok ((r.Form.lookup "body").getD [])) ∧
      (∀ err, (Page.save { Title := title, Body := (r.Form.lookup "body").getD [] } world).1 =
          some err →
        w1.status = some 500 ∧ w1.body = err ++ "\n" ∧ w1.Get "Location" = none) := by
  have hf : r.FormValue "body" = (r.Form.lookup "body").getD [] := rfl
  rw [← hf]
  refine ⟨_, _, saveHandler_eq ResponseWriter.fresh r title world, rfl,
    Page_save_snd_trace _ world, ?_, ?_⟩
  · intro h
    rw [h]
    exact ⟨(Redirect_fresh r _ _).1, (Redirect_fresh r _ _).2,
      Page_save_read ⟨title, r.FormValue "body"⟩ world h⟩
  · intro err h
    rw [h]
    exact Error_fresh err http.StatusInternalServerError

theorem saveHandler_write_then_respond_witness :
    validTitle "Test1" ∧
    (∃ w1 world1,
      saveHandler ResponseWriter.fresh
          ⟨"POST", "/save/Test1", [("body", [72, 105, 195, 40])], ""⟩ "Test1" exampleWorld =
        .ok (w1, world1) ∧
        w1.status = some 302 ∧ w1.Get "Location" = some "/view/Test1" ∧
        world1.trace = [.writeFile "data/Test1.txt" [72, 105, 195, 40] 384] ∧
        world1.fs.read "data/Test1.txt" = .ok [72, 105, 195, 40]) ∧
    (∃ w1 world1,
      saveHandler ResponseWriter.fresh
          ⟨"POST", "/save/Test1", [("body", [72, 105, 195, 40])], ""⟩ "Test1" readOnlyWorld =
        .ok (w1, world1) ∧
        w1.status = some 500 ∧ w1.body = "permission denied\n" ∧ w1.Get "Location" = none ∧
        world1.trace = [.writeFile "data/Test1.txt" [72, 105, 195, 40] 384]) :=
  ⟨by decide,
    match saveHandler_write_then_respond
        ⟨"POST", "/save/Test1", [("body", [72, 105, 195, 40])], ""⟩ "Test1" exampleWorld
        (by decide) with
    | ⟨w1, world1, h, _, ht, hok, _⟩ =>
      ⟨w1, world1, h, (hok rfl).1, (hok rfl).2.1, ht, (hok rfl).2.2⟩,
    match saveHandler_write_then_respond
        ⟨"POST", "/save/Test1", [("body", [72, 105, 195, 40])], ""⟩ "Test1" readOnlyWorld
        (by decide) with
    | ⟨w1, world1, h, _, ht, _, herr⟩ =>
      ⟨w1, world1, h, (herr "permission denied" rfl).1, (herr "permission denied" rfl).2.1,
        (herr "permission denied" rfl).2.2, ht⟩⟩

/-! ## Home page -/

/-- C10: for every request (any method, form, body), `homePageHandler` answers
with a 302 redirect whose `Location` is exactly `"/view/FrontPage"` and leaves
the world untouched; status and location are the same for every other request
(the whole response is, for requests with the same method: the HTML note that
net/http adds for `GET` is the only part that varies), and `main` routes the
path `/` to this handler. -/
theorem homePageHandler_redirects (r : Request) (world : World) :
    ∃ w1, homePageHandler ResponseWriter.fresh r world = .ok (w1, world) ∧
      w1.status = some 302 ∧ w1.Get "Location" = some "/view/FrontPage" ∧
      (∀ r2 : Request, ∃ w2, homePageHandler ResponseWriter.fresh r2 world = .ok (w2, world) ∧
        w2.status = w1.status ∧ w2.Get "Location" = w1.Get "Location" ∧
        (r2.Method = r.Method → w2 = w1)) ∧
      (r.Path = "/" → main.ServeHTTP ResponseWriter.fresh r world = .ok (w1, world)) := by
  refine ⟨_, rfl, (Redirect_fresh r _ _).1, (Redirect_fresh r _ _).2, ?_, ?_⟩
  · intro r2
    refine ⟨_, rfl, ?_, ?_, ?_⟩
    · rw [(Redirect_fresh r2 _ _).1, (Redirect_fresh r _ _).1]
    · rw [(Redirect_fresh r2 _ _).2, (Redirect_fresh r _ _).2]
    · intro h
      simp [http.Redirect, h]
  · intro hp
    have hf : main.find r.Path = some ("/", homePageHandler) := by
      rw [hp]
      simp [main, ServeMux.HandleFunc, ServeMux.find, patternMatches, List.filter,
        List.isPrefixOf, List.getLast?]
    simp only [ServeMux.ServeHTTP, hf]
    rfl

theorem homePageHandler_redirects_witness :
    ∃ w1,
      main.ServeHTTP ResponseWriter.fresh ⟨"GET", "/", [("page", [50])], ""⟩ exampleWorld =
        .ok (w1, exampleWorld) ∧
      w1.status = some 302 ∧ w1.Get "Location" = some "/view/FrontPage" :=
  match homePageHandler_redirects ⟨"GET", "/", [("page", [50])], ""⟩ exampleWorld with
  | ⟨w1, _, hs, hl, _, hmux⟩ => ⟨w1, hmux rfl, hs, hl⟩

/-! ## Person handler -/

theorem Person_save_id (p : Person) (id : Int) (world : World) :
    ({ p with Id := id } : Person).save world = p.save world := rfl

/-- C9: for every POST to `/person/` whose body decodes to a Person `p` and
whose insert succeeds, `personHandler` executes exactly one statement, the
insert of `(p.Name, p.Age, p.EyeColor)` (the same whatever `p.Id` is), adds
that one row, and answers with status 200 and the body
`"We saved " + p.Name + " for you"`. -/
theorem personHandler_saves (r : Request) (world world1 : World) (p : Person)
    (hm : r.Method = "POST") (hdec : world.jsonDecode r.Body = (p, none))
    (hsave : p.save world = .ok (none, world1)) :
    ∃ w1, personHandler ResponseWriter.fresh r world = .ok (w1, world1) ∧
      w1.status = some 200 ∧ w1.body = "We saved " ++ p.Name ++ " for you" ∧
      world1.trace = world.trace ++ [.exec insertPerson p.Name p.Age p.EyeColor] ∧
      world1.db.PERSON = world.db.PERSON ++ [(p.Name, p.Age, p.EyeColor)] ∧
      ∀ id, ({ p with Id := id } : Person).save world = .ok (none, world1) := by
  refine ⟨ResponseWriter.fresh.Write ("We saved " ++ p.Name ++ " for you"), ?_, ?_, ?_, ?_, ?_,
    fun id => (Person_save_id p id world).trans hsave⟩
  · simp [personHandler, hm, hdec, hsave]
  · rfl
  · simp [ResponseWriter.Write, ResponseWriter.WriteHeader, ResponseWriter.fresh]
  · simp only [Person.save, GetDb, Database.Exec] at hsave
    cases hc : world.db.connErr with
    | some e => rw [hc] at hsave; simp at hsave
    | none =>
      rw [hc] at hsave
      simp only at hsave
      cases hi : world.db.insertErr p.Name p.Age p.EyeColor with
      | some e => rw [hi] at hsave; simp at hsave
      | none =>
        rw [hi] at hsave
        simp only [Except.ok.injEq, Prod.mk.injEq, true_and] at hsave
        subst hsave
        simp [World.log, insertPerson]
  · simp only [Person.save, GetDb, Database.Exec] at hsave
    cases hc : world.db.connErr with
    | some e => rw [hc] at hsave; simp at hsave
    | none =>
      rw [hc] at hsave
      simp only at hsave
      cases hi : world.db.insertErr p.Name p.Age p.EyeColor with
      | some e => rw [hi] at hsave; simp at hsave
      | none =>
        rw [hi] at hsave
        simp only [Except.ok.injEq, Prod.mk.injEq, true_and] at hsave
        subst hsave
        simp [World.log]

theorem personHandler_saves_witness :
    ∃ w1 world1,
      personHandler ResponseWriter.fresh
          ⟨"POST", "/person/", [], "\x7b\"name\":\"Alice\",\"age\":30,\"eyeColor\":\"blue\"\x7d"⟩
          exampleWorld = .ok (w1, world1) ∧
        w1.status = some 200 ∧ w1.body = "We saved Alice for you" ∧
        world1.db.PERSON = [("Alice", 30, "blue")] ∧
        world1.trace = [.exec insertPerson "Alice" 30 "blue"] :=
  match personHandler_saves
      ⟨"POST", "/person/", [], "\x7b\"name\":\"Alice\",\"age\":30,\"eyeColor\":\"blue\"\x7d"⟩
      exampleWorld _ { Id := 0, Name := "Alice", Age := 30, EyeColor := "blue" } rfl rfl rfl with
  | ⟨w1, h, hs, hb, ht, hp, _⟩ => ⟨w1, _, h, hs, hb, hp, ht⟩

theorem personHandler_after_decode_error (r : Request) (world : World) (err : String)
    (hm : r.Method = "POST") (hdec : (world.jsonDecode r.Body).2 = some err)
    (hconn : world.db.connErr = none) :
    ∃ w1 world1, personHandler ResponseWriter.fresh r world = .ok (w1, world1) ∧
      w1.status = some 500 ∧
      world1.trace = world.trace ++
        [.exec insertPerson (world.jsonDecode r.Body).1.Name (world.jsonDecode r.Body).1.Age
          (world.jsonDecode r.Body).1.EyeColor] := by
  unfold personHandler
  simp only [hm, if_true, hdec, Person.save, GetDb, hconn, Database.Exec]
  cases hi : world.db.insertErr (world.jsonDecode r.Body).1.Name
      (world.jsonDecode r.Body).1.Age (world.jsonDecode r.Body).1.EyeColor with
  | some e =>
    refine ⟨_, _, rfl, ?_, ?_⟩
    · simp [http.Error, ResponseWriter.fresh, ResponseWriter.Set, ResponseWriter.WriteHeader,
        ResponseWriter.Write, http.StatusInternalServerError]
    · simp [World.log, insertPerson]
  | none =>
    refine ⟨_, _, rfl, ?_, ?_⟩
    · simp [http.Error, ResponseWriter.fresh, ResponseWriter.Set, ResponseWriter.WriteHeader,
        ResponseWriter.Write, http.StatusInternalServerError]
    · simp [World.log, insertPerson]

/-- C2 fails on the code: on a POST whose body does not decode, `personHandler`
writes the 500 response but does not return; whenever the database is
reachable it goes on to execute the insert with whatever the decoder left in
the person.  On the body `\x7b` that is the zero-valued person: the row is
added and the confirmation text is appended to the error response. -/
theorem personHandler_decode_error_still_inserts :
    (∀ (r : Request) (world : World) (err : String), r.Method = "POST" →
      (world.jsonDecode r.Body).2 = some err → world.db.connErr = none →
      ∃ w1 world1, personHandler ResponseWriter.fresh r world = .ok (w1, world1) ∧
        w1.status = some 500 ∧
        world1.trace = world.trace ++
          [.exec insertPerson (world.jsonDecode r.Body).1.Name (world.jsonDecode r.Body).1.Age
            (world.jsonDecode r.Body).1.EyeColor]) ∧
      (exampleWorld.jsonDecode "\x7b").2 = some "unexpected EOF" ∧
      ∃ w1 world1,
        personHandler ResponseWriter.fresh ⟨"POST", "/person/", [], "\x7b"⟩ exampleWorld =
          .ok (w1, world1) ∧
        w1.status = some 500 ∧
        w1.body = "Invalid Person request: unexpected EOF\nWe saved  for you" ∧
        world1.trace = [.exec insertPerson "" 0 ""] ∧
        world1.db.PERSON = [("", 0, "")] :=
  ⟨personHandler_after_decode_error, rfl, _, _, rfl, rfl, by decide, rfl, rfl⟩

end Gowiki
